import Mathlib

/-!
Verification of the fs-extended file reading module (src/read/file-read.ts)
against its specification.

The TypeScript source is shallowly embedded below.  Pure string and path
manipulation is translated directly; the platform primitives (the Node path
module, Node fs reads) and the RxJS combinators (Observable, Subject, merge,
forkJoin) are modelled by their documented semantics, since they are external
collaborators of the repository.  Asynchronous behaviour is modelled as a
trace: the list of values pushed on the result channel together with the kind
of terminal notification (completed, errored, or never closing).
-/

set_option autoImplicit false
set_option linter.unusedVariables false

/-! ## The File record (src/models/file-model, used at lines 30, 45, 165-172) -/

/-- The File record produced by every read operation.  The content field is
absent until a successful read assigns it. -/
structure File where
  name : String
  filePath : String
  fileExtn : String
  parentDirectory : String
  content : Option String
deriving DecidableEq, Repr

/-! ## JavaScript string primitives used at lines 137-140

The source computes the file name with String.prototype.lastIndexOf and
String.prototype.substring, whose JavaScript semantics are: lastIndexOf
returns -1 when the character does not occur, and substring clamps each
argument into the interval from 0 to the length and swaps the two arguments
when the first is larger than the second. -/

/-- Index of the last occurrence of a character in a character list, counting
from the offset i; none when the character does not occur. -/
def lastIdxFrom : List Char → Char → Nat → Option Nat
  | [], _, _ => none
  | x :: xs, c, i =>
    match lastIdxFrom xs c (i + 1) with
    | some j => some j
    | none => if x = c then some i else none

/-- JavaScript String.prototype.lastIndexOf for a single character: the index
of its last occurrence, or -1 when absent. -/
def jsLastIndexOf (s : String) (c : Char) : Int :=
  match lastIdxFrom s.data c 0 with
  | some j => (j : Int)
  | none => -1

/-- JavaScript String.prototype.substring: both arguments are clamped into
the interval from 0 to the length, and swapped when given in reverse order. -/
def jsSubstring (s : String) (start finish : Int) : String :=
  let n : Int := (s.length : Int)
  let a := (max 0 (min start n)).toNat
  let b := (max 0 (min finish n)).toNat
  let lo := min a b
  let hi := max a b
  String.mk ((s.data.drop lo).take (hi - lo))

/-! ## Model of the Node posix path module

The source imports the Node path module (line 2) and uses path.normalize,
path.sep, path.dirname and path.extname.  These are platform primitives, not
code of this repository; they are modelled here from their documented posix
behaviour.  The platform is taken to be posix, so the separator is a slash. -/

/-- The posix path separator, the value of path.sep. -/
def pathSep : Char := '/'

/-- Splits a character list on slashes, keeping empty segments. -/
def splitSlash (cs : List Char) : List (List Char) :=
  cs.foldr
    (fun c acc =>
      match acc with
      | seg :: rest => if c = '/' then [] :: seg :: rest else (c :: seg) :: rest
      | [] => [[c]])
    [[]]

/-- Resolves single-dot and double-dot segments the way path.normalize does:
empty and single-dot segments are dropped, a double-dot pops the previous
segment, is dropped at the root of an absolute path, and is kept at the head
of a relative path.  The accumulator holds the resolved segments reversed. -/
def resolveSegs (isAbs : Bool) : List String → List String → List String
  | acc, [] => acc.reverse
  | acc, s :: rest =>
    if s = "" ∨ s = "." then resolveSegs isAbs acc rest
    else if s = ".." then
      match acc with
      | [] => if isAbs then resolveSegs isAbs [] rest else resolveSegs isAbs [".."] rest
      | t :: acc2 =>
        if t = ".." then resolveSegs isAbs (s :: t :: acc2) rest
        else resolveSegs isAbs acc2 rest
    else resolveSegs isAbs (s :: acc) rest

/-- Joins segments with slashes. -/
def joinSlash : List String → String
  | [] => ""
  | [s] => s
  | s :: rest => s ++ "/" ++ joinSlash rest

/-- Model of path.posix.normalize: resolves dot segments, collapses repeated
separators, keeps one trailing separator, and returns a dot for an empty
resolution of a relative path. -/
def posixNormalize (p : String) : String :=
  if p = "" then "." else
  let cs := p.data
  let isAbs : Bool := cs.head? == some '/'
  let trailing : Bool := cs.getLast? == some '/'
  let segs := (splitSlash cs).map String.mk
  let body := joinSlash (resolveSegs isAbs [] segs)
  let body2 := if trailing && !(body == "") then body ++ "/" else body
  if isAbs then (if body2 = "" then "/" else "/" ++ body2)
  else (if body2 = "" then (if trailing then "./" else ".") else body2)

/-- Drops the run of trailing slashes from a character list. -/
def dropTrailingSlashes (cs : List Char) : List Char :=
  (cs.reverse.dropWhile (fun c => c = '/')).reverse

/-- Index of the last slash at position one or later, after the trailing
slash run has been removed; mirrors the scan inside path.posix.dirname. -/
def lastSlashIdxGe1 (cs : List Char) : Option Nat :=
  match lastIdxFrom (cs.drop 1) '/' 0 with
  | some j => some (j + 1)
  | none => none

/-- Model of path.posix.dirname: the directory portion of a path, with no
normalization, a dot for separator-free relative paths, and the root for
paths inside the root. -/
def posixDirname (p : String) : String :=
  let cs := p.data
  if cs.isEmpty then "." else
  let hasRoot : Bool := cs.head? == some '/'
  let core := dropTrailingSlashes cs
  match lastSlashIdxGe1 core with
  | none => if hasRoot then "/" else "."
  | some e => if hasRoot && e == 1 then "//" else String.mk (cs.take e)

/-- The final path segment as characters, after trailing slashes. -/
def basenameChars (cs : List Char) : List Char :=
  match lastIdxFrom cs '/' 0 with
  | some j => cs.drop (j + 1)
  | none => cs

/-- Model of path.posix.extname: the substring of the final segment from its
last dot onward, or empty when the segment has no dot, starts with its only
dot, or is the double-dot segment. -/
def posixExtname (p : String) : String :=
  let b := basenameChars (dropTrailingSlashes p.data)
  if b = ['.', '.'] then "" else
  match lastIdxFrom b '.' 0 with
  | some j => if j = 0 then "" else String.mk (b.drop j)
  | none => ""

/-! ## The metadata helpers (lines 128-148, 165-172) -/

/-- Line 128: getParentDirectoryFromFilePath returns path.dirname of the
given path. -/
def getParentDirectoryFromFilePath (filePath : String) : String :=
  posixDirname filePath

/-- Lines 137-140: getFileNameFromPath normalizes the path, then takes the
JavaScript substring between the position after the last separator and the
position of the last dot. -/
def getFileNameFromPath (filePath : String) : String :=
  let fp := posixNormalize filePath
  jsSubstring fp (jsLastIndexOf fp pathSep + 1) (jsLastIndexOf fp '.')

/-- Lines 146-148: getFileExtnFromPath returns path.extname of the path. -/
def getFileExtnFromPath (filePath : String) : String :=
  posixExtname filePath

/-- Lines 165-172: getFileDataFromPath builds a File from the path alone;
the content field is not set. -/
def getFileDataFromPath (filePath : String) : File :=
  { name := getFileNameFromPath filePath
    filePath := filePath
    fileExtn := getFileExtnFromPath filePath
    parentDirectory := getParentDirectoryFromFilePath filePath
    content := none }

/-- A File as produced after a successful read of the given path returned
the given string: the metadata from the path with the content assigned. -/
def contentFile (p s : String) : File :=
  { getFileDataFromPath p with content := some s }

/-! ## Read options and the synchronous read family (lines 26-70, 154-158) -/

/-- The IReadFileOptions record from src/read/models/read-options. -/
structure IReadFileOptions where
  encoding : String
deriving DecidableEq, Repr

/-- The options argument of the read functions: either an options record or a
bare encoding string. -/
inductive ReadOptionsArg where
  | opts (o : IReadFileOptions)
  | enc (s : String)
deriving DecidableEq, Repr

/-- Lines 154-158: the default read options. -/
def getDefaultReadOptions : IReadFileOptions :=
  { encoding := "utf-8" }

/-- The defaulted options value, as produced by the defaulting at lines
27-29, 42-44, 61-63 and 95-97 when the caller passes no options. -/
def defaultOptionsArg : ReadOptionsArg :=
  ReadOptionsArg.opts getDefaultReadOptions

/-- The error kinds a platform read can fail with. -/
inductive ReadError where
  | notFound
  | permission
  | ioErr
deriving DecidableEq, Repr

/-- The platform read primitive fs.readFileSync and fs.promises.readFile is
modelled as a function from a path and the options it receives to either the
decoded content string or a read error. -/
abbrev FsRead := String → ReadOptionsArg → Except ReadError String

/-- Lines 26-33: readFileSync defaults the options, builds the File metadata
from the path, performs the platform read with the (defaulted) options, and
on success returns the File with content assigned; a platform failure
propagates to the caller. -/
def readFileSync (fsRead : FsRead) (filePath : String)
    (options : Option ReadOptionsArg) : Except ReadError File :=
  let opts := options.getD defaultOptionsArg
  let file := getFileDataFromPath filePath
  (fsRead filePath opts).map (fun s => { file with content := some s })

/-- The result the platform read yields for a path when it is invoked with
the default options, which is how every read issued by readFilesSync runs. -/
def defaultedResult (fsRead : FsRead) (p : String) : Except ReadError String :=
  fsRead p defaultOptionsArg

/-- The loop body of readFilesSync (lines 64-69): the paths are read one
after another with readFileSync, each called without an options argument; an
exception thrown by a read propagates at once, abandoning the rest. -/
def readFilesSyncGo (fsRead : FsRead) : List String → Except ReadError (List File)
  | [] => Except.ok []
  | p :: rest =>
    match readFileSync fsRead p none with
    | Except.error e => Except.error e
    | Except.ok f =>
      match readFilesSyncGo fsRead rest with
      | Except.error e => Except.error e
      | Except.ok fs => Except.ok (f :: fs)

/-- Lines 60-70: readFilesSync defaults its options argument (lines 61-63)
but then calls readFileSync without it (line 66), so the defaulted value is
never used; the paths are read strictly in order and the first failure
propagates. -/
def readFilesSync (fsRead : FsRead) (filePaths : List String)
    (options : Option ReadOptionsArg) : Except ReadError (List File) :=
  readFilesSyncGo fsRead filePaths

/-- The paths whose platform read readFilesSync actually performs: every path
up to and including the first failing one, in input order. -/
def readFilesSyncReads (fsRead : FsRead) : List String → List String
  | [] => []
  | p :: rest =>
    match defaultedResult fsRead p with
    | Except.ok _ => p :: readFilesSyncReads fsRead rest
    | Except.error _ => [p]

/-! ## Channel traces for the asynchronous family

An asynchronous read surfaces on an RxJS stream.  A run of such a stream is
modelled as a trace: the list of values delivered in order, and the kind of
terminal notification. -/

/-- How a channel run ends: a completion notification, an error
notification, or no terminal notification at all (the channel stays open
forever). -/
inductive Terminal where
  | completed
  | errored (e : ReadError)
  | neverCloses
deriving DecidableEq, Repr

/-- A value delivered on the channel: a single File in eager mode and for
single-file reads, or the whole batch in lazy mode. -/
inductive Emission where
  | single (f : File)
  | batch (fs : List File)
deriving DecidableEq, Repr

/-- A run of a channel: the delivered values in order, then the terminal
behaviour. -/
structure ChanTrace where
  events : List Emission
  terminal : Terminal
deriving DecidableEq, Repr

/-- Lines 41-53: the observable returned by readFileAsync, per subscription,
given the outcome of the underlying platform read.  On fulfilment the
observer receives the File with content assigned and then a completion.  On
rejection the observer receives nothing at all: the promise chain at line 47
installs no rejection handler, so neither a value nor an error nor a
completion ever reaches the observer. -/
def readFileAsyncTrace (filePath : String) (result : Except ReadError String) : ChanTrace :=
  match result with
  | Except.ok s =>
    { events := [Emission.single (contentFile filePath s)], terminal := Terminal.completed }
  | Except.error _ =>
    { events := [], terminal := Terminal.neverCloses }

/-! ## The orchestrator readFilesAsync (lines 79-122)

The orchestrator launches one readFileAsync observable per path.  A run is
described by the per-path outcome of the underlying platform reads
(results, aligned with the path list by position) and by the order in which
those reads settle (order, a permutation of the positions).  The RxJS
combinators are modelled by their documented semantics:

merge forwards each inner emission as it arrives and completes once every
inner observable has completed; forkJoin waits for every inner observable to
complete and then emits the list of their last values in input order, except
that a forkJoin of an empty list completes immediately without emitting.
Since a failed read leaves its inner observable silent forever, neither
combinator ever completes when some read fails. -/

/-- True when every platform read in the run succeeded. -/
def allOk (results : List (Except ReadError String)) : Bool :=
  results.all (fun r => match r with | Except.ok _ => true | Except.error _ => false)

/-- The File emitted by the inner observable at position i, when the read at
that position succeeded. -/
def fileAt (paths : List String) (results : List (Except ReadError String))
    (i : Nat) : Option File :=
  match paths[i]?, results[i]? with
  | some p, some (Except.ok s) => some (contentFile p s)
  | _, _ => none

/-- The emissions of merge in settle order: each successful read contributes
its File at the moment it settles; failed reads contribute nothing. -/
def mergeEvents (paths : List String) (results : List (Except ReadError String))
    (order : List Nat) : List File :=
  order.filterMap (fileAt paths results)

/-- The run of merge over the inner observables (eager branch, line 105). -/
def mergedTrace (paths : List String) (results : List (Except ReadError String))
    (order : List Nat) : ChanTrace :=
  { events := (mergeEvents paths results order).map Emission.single
    terminal := if allOk results then Terminal.completed else Terminal.neverCloses }

/-- The batch forkJoin assembles: the File of each path in input order.
Only used when every read succeeded. -/
def batchFiles : List String → List (Except ReadError String) → List File
  | p :: ps, Except.ok s :: rs => contentFile p s :: batchFiles ps rs
  | _ :: ps, Except.error _ :: rs => batchFiles ps rs
  | _, _ => []

/-- The run of forkJoin over the inner observables (lazy branch, line 108):
an empty input list completes at once with no emission; otherwise one batch
in input order is emitted when every inner observable completes, which never
happens if any read failed. -/
def forkJoinTrace (paths : List String)
    (results : List (Except ReadError String)) : ChanTrace :=
  if paths.isEmpty then { events := [], terminal := Terminal.completed }
  else if allOk results then
    { events := [Emission.batch (batchFiles paths results)], terminal := Terminal.completed }
  else { events := [], terminal := Terminal.neverCloses }

/-- Lines 110-120: the orchestrator pipes the merged observable into its
subject; values are forwarded, an error is discarded by the error callback
(so the subject is neither errored nor completed), and completion is
forwarded. -/
def subjectWrap (t : ChanTrace) : ChanTrace :=
  { events := t.events
    terminal :=
      match t.terminal with
      | Terminal.completed => Terminal.completed
      | Terminal.errored _ => Terminal.neverCloses
      | Terminal.neverCloses => Terminal.neverCloses }

/-- The emission strategy type (line 14). -/
inductive EmissionStrategy where
  | eager
  | lazy
deriving DecidableEq, Repr

/-- Lines 89-122: the run of the channel readFilesAsync returns, given the
outcomes of the platform reads and their settle order. -/
def readFilesAsync (paths : List String) (strategy : EmissionStrategy)
    (results : List (Except ReadError String)) (order : List Nat) : ChanTrace :=
  subjectWrap
    (match strategy with
     | EmissionStrategy.eager => mergedTrace paths results order
     | EmissionStrategy.lazy => forkJoinTrace paths results)

/-! ## Object identity of File records

The spec states an ownership discipline for File records.  Object identity
is modelled with an explicit store: every File object lives at an index of
the store, a call to readFileAsync allocates exactly one File (line 45 runs
getFileDataFromPath once, outside the Observable constructor), and every
subscription runs the function at lines 46-52, which on fulfilment assigns
the content of that same shared object and emits its reference. -/

/-- The store of allocated File objects; the index of an object is its
identity. -/
structure FileStore where
  files : List File
deriving DecidableEq, Repr

/-- Replaces the element at an index by the image under a function. -/
def listModify {α : Type} : List α → Nat → (α → α) → List α
  | [], _, _ => []
  | x :: xs, 0, f => f x :: xs
  | x :: xs, n + 1, f => x :: listModify xs n f

/-- Allocates a File object, returning the new store and the identity of the
object. -/
def FileStore.alloc (h : FileStore) (f : File) : FileStore × Nat :=
  ({ files := h.files ++ [f] }, h.files.length)

/-- Assigns the content of the File object with the given identity. -/
def FileStore.setContent (h : FileStore) (i : Nat) (s : String) : FileStore :=
  { files := listModify h.files i (fun f => { f with content := some s }) }

/-- The value readFileAsync returns: an observable handle that has captured
the single File object allocated at line 45. -/
structure ObsHandle where
  filePath : String
  fileId : Nat
deriving DecidableEq, Repr

/-- Lines 41-46: evaluating a call to readFileAsync builds the File metadata
once and captures that one object in the observable it returns; no read is
performed yet. -/
def readFileAsyncCall (h : FileStore) (filePath : String) : FileStore × ObsHandle :=
  let a := h.alloc (getFileDataFromPath filePath)
  (a.1, { filePath := filePath, fileId := a.2 })

/-- Lines 46-52: one subscription to the observable, given the outcome of
the platform read it starts.  On fulfilment the captured File object has its
content assigned and its reference is emitted, then the subscription
completes; on rejection the observer hears nothing.  Returns the updated
store, the references emitted, and the terminal behaviour. -/
def subscribeReadFileAsync (h : FileStore) (o : ObsHandle)
    (result : Except ReadError String) : FileStore × List Nat × Terminal :=
  match result with
  | Except.ok s => (h.setContent o.fileId s, [o.fileId], Terminal.completed)
  | Except.error _ => (h, [], Terminal.neverCloses)

/-! ## Evaluation timing of readFilesAsync

The claim that the returned stream is hot is about when work happens, so the
model records the primitive actions a step performs.  The only action that
matters is starting a platform read. -/

/-- An observable primitive action. -/
inductive ReadAction where
  | fsReadStart (p : String)
deriving DecidableEq, Repr

/-- The actions the call to readFilesAsync itself performs, before
returning: building the inner observables at lines 98-101 starts no read
(they are cold), but the subscription at line 110 subscribes the merged
observable, which subscribes every inner observable and hence starts one
platform read per path, for either strategy. -/
def readFilesAsyncCallActions (paths : List String)
    (strategy : EmissionStrategy) : List ReadAction :=
  paths.map ReadAction.fsReadStart

/-- The actions performed when a caller subscribes to the returned
observable (line 121): subscribing to a view of a Subject only registers the
observer and starts no read. -/
def readFilesAsyncSubscribeActions : List ReadAction := []

/-- What a subscriber of the subject receives when it subscribes after k
values have already been pushed: a Subject does not replay, so only the
pushes from position k onward are delivered. -/
def subjectReceivedFrom (pushes : List Emission) (k : Nat) : List Emission :=
  pushes.drop k

/-! ## Decidability and helper lemmas -/

deriving instance DecidableEq for Except

/-- Looking up a position in an empty run yields no File. -/
theorem fileAt_nil (i : Nat) : fileAt [] [] i = none := by
  simp [fileAt]

/-- With no paths there are no merge emissions, whatever the settle order. -/
theorem mergeEvents_nil (order : List Nat) : mergeEvents [] [] order = [] := by
  induction order with
  | nil => rfl
  | cons i rest ih =>
    simp only [mergeEvents, List.filterMap_cons, fileAt_nil] at ih ⊢
    exact ih

/-- When every read succeeded, the lazy batch has one File per path. -/
theorem batchFiles_length : ∀ (ps : List String) (rs : List (Except ReadError String)),
    rs.length = ps.length → allOk rs = true → (batchFiles ps rs).length = ps.length := by
  intro ps
  induction ps with
  | nil =>
    intro rs hlen hok
    cases rs with
    | nil => rfl
    | cons r rs => simp at hlen
  | cons p ps ih =>
    intro rs hlen hok
    cases rs with
    | nil => simp at hlen
    | cons r rs =>
      cases r with
      | error e => simp [allOk] at hok
      | ok s =>
        have hok2 : allOk rs = true := by
          simp [allOk] at hok ⊢
          exact hok
        have hlen2 : rs.length = ps.length := by
          simpa using hlen
        simp [batchFiles, ih rs hlen2 hok2]

/-- When every read succeeded, the File at each position of the lazy batch
is the File of the path at that position: the batch is in input order. -/
theorem batchFiles_get : ∀ (ps : List String) (rs : List (Except ReadError String)),
    allOk rs = true →
    ∀ (j : Nat) (p s : String), ps[j]? = some p → rs[j]? = some (Except.ok s) →
      (batchFiles ps rs)[j]? = some (contentFile p s) := by
  intro ps
  induction ps with
  | nil =>
    intro rs hok j p s hp hr
    simp at hp
  | cons q ps ih =>
    intro rs hok j p s hp hr
    cases rs with
    | nil => simp at hr
    | cons r rs =>
      cases r with
      | error e => simp [allOk] at hok
      | ok t =>
        have hok2 : allOk rs = true := by
          simp [allOk] at hok ⊢
          exact hok
        cases j with
        | zero =>
          simp at hp hr
          subst hp
          subst hr
          simp [batchFiles]
        | succ j =>
          simp only [List.getElem?_cons_succ] at hp hr
          simpa [batchFiles] using ih rs hok2 j p s hp hr

/-- The element appended at the end of a list is found at the old length. -/
theorem getElem?_append_singleton {α : Type} (l : List α) (a : α) :
    (l ++ [a])[l.length]? = some a := by
  induction l with
  | nil => rfl
  | cons x xs ih =>
    show (x :: (xs ++ [a]))[xs.length + 1]? = some a
    rw [List.getElem?_cons_succ]
    exact ih

/-- Modifying the appended element of a list rewrites exactly it. -/
theorem listModify_append {α : Type} (l : List α) (a : α) (g : α → α) :
    listModify (l ++ [a]) l.length g = l ++ [g a] := by
  induction l with
  | nil => rfl
  | cons x xs ih =>
    show listModify (x :: (xs ++ [a])) (xs.length + 1) g = x :: (xs ++ [g a])
    simp [listModify, ih]

/-! ## Claim C4 -/

/-- Claim C4 (code bug): for a path whose final segment has no dot, the spec
and the doc comment of getFileNameFromPath promise the full final segment,
but the source computes substring(lastSlash + 1, -1), and the JavaScript
substring swap-and-clamp semantics turn that into substring(0, lastSlash + 1):
on the path a/b/c the function returns the string a/b/ instead of c.  The
extension helper and the dotted-path behaviour match the claim. -/
theorem metadata_helpers_on_dotless_path :
    getFileNameFromPath "a/b/c" = "a/b/" ∧
    getFileNameFromPath "a/b/c" ≠ "c" ∧
    getFileExtnFromPath "a/b/c" = "" ∧
    getFileNameFromPath "a/b/c.txt" = "c" ∧
    getFileExtnFromPath "a/b/c.txt" = ".txt" := by
  refine ⟨by decide, by decide, by decide, by decide, by decide⟩

/-! ## Claim C5 -/

/-- Claim C5 (amended): with an empty path list both strategies close the
channel immediately with zero emissions and never hang; the lazy strategy
does not emit an empty batch, because a forkJoin over an empty list
completes without emitting. -/
theorem readFilesAsync_empty_paths_closes (strategy : EmissionStrategy) (order : List Nat) :
    readFilesAsync [] strategy [] order = { events := [], terminal := Terminal.completed } := by
  cases strategy with
  | eager =>
    simp [readFilesAsync, mergedTrace, subjectWrap, allOk, mergeEvents_nil]
  | lazy => rfl

/-- Counterexample to claim C5 as stated: the lazy strategy on the empty
path list emits no value at all, not one empty batch. -/
theorem lazy_empty_no_empty_batch_emission :
    (readFilesAsync [] EmissionStrategy.lazy [] []).events = [] ∧
    (readFilesAsync [] EmissionStrategy.lazy [] []).events ≠ [Emission.batch []] := by
  decide

/-! ## Claim C1 -/

/-- Claim C1 (amended to non-empty path lists): for every non-empty list of
paths and every settle order of the underlying reads, the lazy strategy with
all reads succeeding emits exactly one value, the batch of File records in
input-path order, and then completes the channel.  On the empty list the
code emits nothing and completes. -/
theorem lazy_emits_single_batch_in_input_order (paths : List String)
    (results : List (Except ReadError String)) (order : List Nat)
    (hne : paths ≠ []) (hlen : results.length = paths.length)
    (hok : allOk results = true) :
    (readFilesAsync paths EmissionStrategy.lazy results order).terminal = Terminal.completed ∧
    (readFilesAsync paths EmissionStrategy.lazy results order).events =
      [Emission.batch (batchFiles paths results)] ∧
    (batchFiles paths results).length = paths.length ∧
    (∀ (j : Nat) (p s : String), paths[j]? = some p → results[j]? = some (Except.ok s) →
      (batchFiles paths results)[j]? = some (contentFile p s)) := by
  have hE : paths.isEmpty = false := by
    cases paths with
    | nil => exact absurd rfl hne
    | cons a l => rfl
  refine ⟨?_, ?_, batchFiles_length paths results hlen hok,
    fun j p s hp hr => batchFiles_get paths results hok j p s hp hr⟩
  · simp [readFilesAsync, forkJoinTrace, hE, hok, subjectWrap]
  · simp [readFilesAsync, forkJoinTrace, hE, hok, subjectWrap]

/-- Witness for the amended claim C1 at a concrete input whose settle order
reverses the input order. -/
theorem lazy_emits_single_batch_in_input_order_witness :
    (readFilesAsync ["a", "b"] EmissionStrategy.lazy
        [Except.ok "1", Except.ok "2"] [1, 0]).terminal = Terminal.completed ∧
    (readFilesAsync ["a", "b"] EmissionStrategy.lazy
        [Except.ok "1", Except.ok "2"] [1, 0]).events =
      [Emission.batch (batchFiles ["a", "b"] [Except.ok "1", Except.ok "2"])] ∧
    (batchFiles ["a", "b"] [Except.ok "1", Except.ok "2"]).length =
      (["a", "b"] : List String).length ∧
    (∀ (j : Nat) (p s : String), (["a", "b"] : List String)[j]? = some p →
      ([Except.ok "1", Except.ok "2"] : List (Except ReadError String))[j]? =
        some (Except.ok s) →
      (batchFiles ["a", "b"] [Except.ok "1", Except.ok "2"])[j]? =
        some (contentFile p s)) :=
  lazy_emits_single_batch_in_input_order ["a", "b"] [Except.ok "1", Except.ok "2"] [1, 0]
    (by decide) (by decide) (by decide)

/-- Counterexample to claim C1 as stated over every list of paths: on the
empty list, with all of its (zero) reads succeeding, the lazy channel
completes with zero value emissions instead of exactly one. -/
theorem lazy_all_ok_but_no_emission_on_empty :
    allOk [] = true ∧
    (readFilesAsync [] EmissionStrategy.lazy [] []).events.length = 0 ∧
    (readFilesAsync [] EmissionStrategy.lazy [] []).terminal = Terminal.completed := by
  decide

/-! ## Claim C2 -/

/-- Claim C2 (amended): under the lazy strategy, if at least one per-file
read fails then no batch value is ever emitted and the content of
already-completed sibling reads is never observable; however, the channel
does not close with an error: it never closes at all, because the failed
promise rejection never reaches the inner observable (line 47) and the
orchestrator discards errors (line 115), so no terminal notification is
ever delivered. -/
theorem lazy_failure_no_batch_never_closes (paths : List String)
    (results : List (Except ReadError String)) (order : List Nat)
    (hlen : results.length = paths.length) (hfail : allOk results = false) :
    (readFilesAsync paths EmissionStrategy.lazy results order).events = [] ∧
    (readFilesAsync paths EmissionStrategy.lazy results order).terminal =
      Terminal.neverCloses := by
  have hne : paths.isEmpty = false := by
    cases paths with
    | nil =>
      cases results with
      | nil => simp [allOk] at hfail
      | cons r rs => simp at hlen
    | cons a l => rfl
  constructor
  · simp [readFilesAsync, forkJoinTrace, hne, hfail, subjectWrap]
  · simp [readFilesAsync, forkJoinTrace, hne, hfail, subjectWrap]

/-- Witness for the amended claim C2 at a concrete failing input. -/
theorem lazy_failure_no_batch_never_closes_witness :
    (readFilesAsync ["p", "q"] EmissionStrategy.lazy
        [Except.error ReadError.permission, Except.ok "y"] [0, 1]).events = [] ∧
    (readFilesAsync ["p", "q"] EmissionStrategy.lazy
        [Except.error ReadError.permission, Except.ok "y"] [0, 1]).terminal =
      Terminal.neverCloses :=
  lazy_failure_no_batch_never_closes ["p", "q"]
    [Except.error ReadError.permission, Except.ok "y"] [0, 1] (by decide) (by decide)

/-- True exactly when a channel run ends with an error notification. -/
def closesWithErrorB (t : ChanTrace) : Bool :=
  match t.terminal with
  | Terminal.errored _ => true
  | _ => false

/-- Counterexample to claim C2 as stated: with one of three lazy reads
failing, the channel does not close with an error, and it does not complete
either; it stays open forever (while indeed emitting no batch). -/
theorem lazy_failure_channel_does_not_error :
    closesWithErrorB (readFilesAsync ["a", "b", "c"] EmissionStrategy.lazy
      [Except.ok "x", Except.error ReadError.notFound, Except.ok "z"] [2, 0, 1]) = false ∧
    (readFilesAsync ["a", "b", "c"] EmissionStrategy.lazy
      [Except.ok "x", Except.error ReadError.notFound, Except.ok "z"] [2, 0, 1]).terminal ≠
      Terminal.completed ∧
    (readFilesAsync ["a", "b", "c"] EmissionStrategy.lazy
      [Except.ok "x", Except.error ReadError.notFound, Except.ok "z"] [2, 0, 1]).events = [] := by
  decide

/-! ## Claim C3 -/

/-- Claim C3 (amended): under the eager strategy a failed read suppresses
only its own emission; every other read still has its File emitted, in
settle order.  However, the channel does not deliver its terminal
notification once all launched reads have finished: when at least one read
failed, the failed inner observable never completes (line 47 installs no
rejection handler), so the merged observable and hence the subject never
complete, and the channel never closes. -/
theorem eager_failure_siblings_still_emitted (paths : List String)
    (results : List (Except ReadError String)) (order : List Nat)
    (hfail : allOk results = false) :
    (readFilesAsync paths EmissionStrategy.eager results order).terminal =
      Terminal.neverCloses ∧
    (∀ (i : Nat), i ∈ order → ∀ (p s : String),
      paths[i]? = some p → results[i]? = some (Except.ok s) →
      Emission.single (contentFile p s) ∈
        (readFilesAsync paths EmissionStrategy.eager results order).events) := by
  constructor
  · simp [readFilesAsync, mergedTrace, subjectWrap, hfail]
  · intro i hi p s hp hr
    have hf : fileAt paths results i = some (contentFile p s) := by
      simp [fileAt, hp, hr]
    have h1 : contentFile p s ∈ mergeEvents paths results order :=
      List.mem_filterMap.mpr ⟨i, hi, hf⟩
    simpa [readFilesAsync, mergedTrace, subjectWrap] using
      List.mem_map_of_mem Emission.single h1

/-- Witness for the amended claim C3 at a concrete input where the first
read fails and the second succeeds. -/
theorem eager_failure_siblings_still_emitted_witness :
    (readFilesAsync ["a", "b"] EmissionStrategy.eager
        [Except.error ReadError.notFound, Except.ok "y"] [1, 0]).terminal =
      Terminal.neverCloses ∧
    (∀ (i : Nat), i ∈ ([1, 0] : List Nat) → ∀ (p s : String),
      (["a", "b"] : List String)[i]? = some p →
      ([Except.error ReadError.notFound, Except.ok "y"] :
          List (Except ReadError String))[i]? = some (Except.ok s) →
      Emission.single (contentFile p s) ∈
        (readFilesAsync ["a", "b"] EmissionStrategy.eager
          [Except.error ReadError.notFound, Except.ok "y"] [1, 0]).events) :=
  eager_failure_siblings_still_emitted ["a", "b"]
    [Except.error ReadError.notFound, Except.ok "y"] [1, 0] (by decide)

/-- Counterexample to claim C3 as stated: with one of two eager reads
failing, the surviving File is emitted but the channel never delivers a
terminal notification, even though every launched read has finished. -/
theorem eager_failure_channel_never_closes :
    (readFilesAsync ["a", "b"] EmissionStrategy.eager
        [Except.ok "x", Except.error ReadError.ioErr] [0, 1]).events =
      [Emission.single (contentFile "a" "x")] ∧
    (readFilesAsync ["a", "b"] EmissionStrategy.eager
        [Except.ok "x", Except.error ReadError.ioErr] [0, 1]).terminal =
      Terminal.neverCloses := by
  decide

/-! ## Claim C6 -/

/-- Unfolding of one readFileSync call issued by readFilesSync: the read
runs with the default options and its result is mapped onto the File. -/
theorem readFileSync_none_eq (fsRead : FsRead) (p : String) :
    readFileSync fsRead p none =
      (defaultedResult fsRead p).map
        (fun s => { getFileDataFromPath p with content := some s }) := rfl

/-- A successful readFilesSync run returns one File per path, each built
from the path at the same position and the content its defaulted read
returned, and it performs every read in order. -/
theorem readFilesSyncGo_ok_spec (fsRead : FsRead) :
    ∀ (paths : List String) (files : List File),
      readFilesSyncGo fsRead paths = Except.ok files →
      files.length = paths.length ∧
      (∀ (j : Nat) (p : String), paths[j]? = some p →
        ∃ s, defaultedResult fsRead p = Except.ok s ∧
          files[j]? = some (contentFile p s)) ∧
      readFilesSyncReads fsRead paths = paths := by
  intro paths
  induction paths with
  | nil =>
    intro files h
    cases h
    refine ⟨rfl, ?_, rfl⟩
    intro j p hp
    simp at hp
  | cons q rest ih =>
    intro files h
    simp only [readFilesSyncGo, readFileSync_none_eq] at h
    cases hr : defaultedResult fsRead q with
    | error e =>
      rw [hr] at h
      simp [Except.map] at h
    | ok s =>
      rw [hr] at h
      simp only [Except.map] at h
      cases hg : readFilesSyncGo fsRead rest with
      | error e =>
        rw [hg] at h
        simp at h
      | ok fs =>
        rw [hg] at h
        simp only [Except.ok.injEq] at h
        subst h
        obtain ⟨hlen, hget, hreads⟩ := ih fs hg
        refine ⟨by simp [hlen], ?_, ?_⟩
        · intro j p hp
          cases j with
          | zero =>
            simp only [List.getElem?_cons_zero, Option.some.injEq] at hp
            subst hp
            exact ⟨s, hr, by simp [contentFile]⟩
          | succ j =>
            simp only [List.getElem?_cons_succ] at hp ⊢
            exact hget j p hp
        · simp only [readFilesSyncReads, hr, hreads]

/-- A failing readFilesSync run fails with the error of the first failing
path; every earlier path was read successfully, and no path after the
failing one is read at all. -/
theorem readFilesSyncGo_error_spec (fsRead : FsRead) :
    ∀ (paths : List String) (e : ReadError),
      readFilesSyncGo fsRead paths = Except.error e →
      ∃ (k : Nat) (p : String), paths[k]? = some p ∧
        defaultedResult fsRead p = Except.error e ∧
        (∀ j, j < k → ∃ (q : String) (s : String), paths[j]? = some q ∧
          defaultedResult fsRead q = Except.ok s) ∧
        readFilesSyncReads fsRead paths = paths.take (k + 1) := by
  intro paths
  induction paths with
  | nil =>
    intro e h
    simp [readFilesSyncGo] at h
  | cons q rest ih =>
    intro e h
    simp only [readFilesSyncGo, readFileSync_none_eq] at h
    cases hr : defaultedResult fsRead q with
    | error e0 =>
      rw [hr] at h
      simp only [Except.map, Except.error.injEq] at h
      subst h
      refine ⟨0, q, by simp, hr, ?_, ?_⟩
      · intro j hj
        exact absurd hj (Nat.not_lt_zero j)
      · simp [readFilesSyncReads, hr]
    | ok s =>
      rw [hr] at h
      simp only [Except.map] at h
      cases hg : readFilesSyncGo fsRead rest with
      | ok fs =>
        rw [hg] at h
        simp at h
      | error e2 =>
        rw [hg] at h
        simp only [Except.error.injEq] at h
        subst h
        obtain ⟨k, p, hk, he, hbefore, hreads⟩ := ih e2 hg
        refine ⟨k + 1, p, ?_, he, ?_, ?_⟩
        · simpa using hk
        · intro j hj
          cases j with
          | zero => exact ⟨q, s, by simp, hr⟩
          | succ j =>
            have hj2 : j < k := Nat.lt_of_succ_lt_succ hj
            obtain ⟨q2, s2, hq2, hs2⟩ := hbefore j hj2
            exact ⟨q2, s2, by simpa using hq2, hs2⟩
        · simp only [readFilesSyncReads, hr, hreads, List.take_succ_cons]

/-- Claim C6: readFilesSync reads the paths strictly in order and returns
the File records in exactly input order; the first failure propagates at
once, with no later path read as part of the call and no partial sequence
returned. -/
theorem readFilesSync_ordered_and_fail_fast (fsRead : FsRead) (paths : List String)
    (options : Option ReadOptionsArg) :
    (∀ (files : List File), readFilesSync fsRead paths options = Except.ok files →
      files.length = paths.length ∧
      (∀ (j : Nat) (p : String), paths[j]? = some p →
        ∃ s, defaultedResult fsRead p = Except.ok s ∧
          files[j]? = some (contentFile p s)) ∧
      readFilesSyncReads fsRead paths = paths) ∧
    (∀ (e : ReadError), readFilesSync fsRead paths options = Except.error e →
      ∃ (k : Nat) (p : String), paths[k]? = some p ∧
        defaultedResult fsRead p = Except.error e ∧
        (∀ j, j < k → ∃ (q : String) (s : String), paths[j]? = some q ∧
          defaultedResult fsRead q = Except.ok s) ∧
        readFilesSyncReads fsRead paths = paths.take (k + 1)) :=
  ⟨fun files h => readFilesSyncGo_ok_spec fsRead paths files h,
   fun e h => readFilesSyncGo_error_spec fsRead paths e h⟩

/-- A concrete platform read for the witness: the path b does not exist and
every other path p holds the content C followed by p. -/
def fsEx : FsRead := fun p o =>
  if p = "b" then Except.error ReadError.notFound else Except.ok ("C" ++ p)

/-- Witness for claim C6: on the paths a, b, c with b missing, the call
fails with the not-found error of b, the path a was read successfully
before it, and c is never read. -/
theorem readFilesSync_ordered_and_fail_fast_witness :
    ∃ (k : Nat) (p : String), (["a", "b", "c"] : List String)[k]? = some p ∧
      defaultedResult fsEx p = Except.error ReadError.notFound ∧
      (∀ j, j < k → ∃ (q : String) (s : String),
        (["a", "b", "c"] : List String)[j]? = some q ∧
        defaultedResult fsEx q = Except.ok s) ∧
      readFilesSyncReads fsEx ["a", "b", "c"] =
        (["a", "b", "c"] : List String).take (k + 1) :=
  (readFilesSync_ordered_and_fail_fast fsEx ["a", "b", "c"] none).2
    ReadError.notFound (by decide)

/-! ## Claim C7 -/

/-- The encoding carried by an options argument. -/
def encodingOf : ReadOptionsArg → String
  | ReadOptionsArg.opts o => o.encoding
  | ReadOptionsArg.enc s => s

/-- A platform read that reports which options it was invoked with, by
returning the encoding it received as the content. -/
def encodingProbe : FsRead := fun p o => Except.ok (encodingOf o)

/-- Claim C7 (code bug): readFilesSync accepts and defaults a caller
options argument (lines 61-63) but then calls readFileSync without it
(line 66), so every underlying read runs with the default utf-8 options no
matter what the caller passed; the options argument has no effect on the
result.  By contrast a direct readFileSync call does pass the caller
options through. -/
theorem readFilesSync_drops_caller_options :
    (∀ (fsRead : FsRead) (paths : List String) (o1 o2 : Option ReadOptionsArg),
      readFilesSync fsRead paths o1 = readFilesSync fsRead paths o2) ∧
    readFileSync encodingProbe "a.txt" (some (ReadOptionsArg.enc "ascii")) =
      Except.ok (contentFile "a.txt" "ascii") ∧
    readFilesSync encodingProbe ["a.txt"] (some (ReadOptionsArg.enc "ascii")) =
      Except.ok [contentFile "a.txt" "utf-8"] :=
  ⟨fun fsRead paths o1 o2 => rfl, by decide, by decide⟩

/-! ## Claim C8 -/

/-- Claim C8 (code bug): the task returned by readFileAsync resolves to a
File with content populated on success, but on a failed read it delivers
nothing at all: line 47 installs no rejection handler on the promise, so
the subscriber receives neither a value nor any terminal notification,
contradicting the claimed terminal error notification. -/
theorem readFileAsync_rejection_unobservable :
    (∀ (p : String) (e : ReadError),
      readFileAsyncTrace p (Except.error e) =
        { events := [], terminal := Terminal.neverCloses }) ∧
    readFileAsyncTrace "missing.txt" (Except.error ReadError.notFound) =
      { events := [], terminal := Terminal.neverCloses } ∧
    readFileAsyncTrace "present.txt" (Except.ok "data") =
      { events := [Emission.single (contentFile "present.txt" "data")],
        terminal := Terminal.completed } :=
  ⟨fun p e => rfl, rfl, rfl⟩

/-! ## Claim C9 -/

/-- Claim C9 (amended): each File object is created with content absent, a
single successful subscription assigns its content exactly once, and
distinct readFileAsync calls allocate distinct File objects.  However, all
subscriptions to the observable of one readFileAsync call share the single
File object that the call allocated at line 45, so the no-sharing half of
the original claim fails for repeated subscriptions. -/
theorem file_content_lifecycle_per_allocation (h : FileStore) (p q s : String) :
    (getFileDataFromPath p).content = none ∧
    (readFileAsyncCall h p).1.files[(readFileAsyncCall h p).2.fileId]? =
      some (getFileDataFromPath p) ∧
    (subscribeReadFileAsync (readFileAsyncCall h p).1 (readFileAsyncCall h p).2
        (Except.ok s)).1.files[(readFileAsyncCall h p).2.fileId]? =
      some (contentFile p s) ∧
    (readFileAsyncCall (readFileAsyncCall h p).1 q).2.fileId ≠
      (readFileAsyncCall h p).2.fileId := by
  refine ⟨rfl, ?_, ?_, ?_⟩
  · show (h.files ++ [getFileDataFromPath p])[h.files.length]? =
      some (getFileDataFromPath p)
    exact getElem?_append_singleton h.files (getFileDataFromPath p)
  · show (listModify (h.files ++ [getFileDataFromPath p]) h.files.length
        (fun f => { f with content := some s }))[h.files.length]? =
      some (contentFile p s)
    rw [listModify_append]
    exact getElem?_append_singleton h.files (contentFile p s)
  · show (h.files ++ [getFileDataFromPath p]).length ≠ h.files.length
    simp

/-- The store and handle after one call to readFileAsync on an empty store. -/
def sharedCall : FileStore × ObsHandle :=
  readFileAsyncCall { files := [] } "a/b.txt"

/-- The state after a first subscription whose read returns v1. -/
def sharedSub1 : FileStore × List Nat × Terminal :=
  subscribeReadFileAsync sharedCall.1 sharedCall.2 (Except.ok "v1")

/-- The state after a second subscription to the same observable whose read
returns v2. -/
def sharedSub2 : FileStore × List Nat × Terminal :=
  subscribeReadFileAsync sharedSub1.1 sharedCall.2 (Except.ok "v2")

/-- Counterexample to claim C9 as stated: two subscriptions to the same
readFileAsync observable both receive the same File object, and the second
subscription mutates the content that the first had already received, so
content is assigned more than once and the object is shared between
deliveries. -/
theorem readFileAsync_subscriptions_share_file :
    sharedSub1.2.1 = [sharedCall.2.fileId] ∧
    sharedSub2.2.1 = [sharedCall.2.fileId] ∧
    sharedSub1.1.files[sharedCall.2.fileId]? = some (contentFile "a/b.txt" "v1") ∧
    sharedSub2.1.files[sharedCall.2.fileId]? = some (contentFile "a/b.txt" "v2") ∧
    contentFile "a/b.txt" "v2" ≠ contentFile "a/b.txt" "v1" := by
  decide

/-! ## Claim C10 -/

/-- Claim C10: all underlying reads are started by the readFilesAsync call
itself, under either strategy; subscribing to the returned observable
starts no read; and a subscriber that subscribes after k values were pushed
receives exactly the later pushes, never the earlier ones. -/
theorem readFilesAsync_reads_start_at_call (paths : List String)
    (strategy : EmissionStrategy) (results : List (Except ReadError String))
    (order : List Nat) (k m : Nat)
    (hk : k ≤ (readFilesAsync paths strategy results order).events.length) :
    (∀ p, p ∈ paths →
      ReadAction.fsReadStart p ∈ readFilesAsyncCallActions paths strategy) ∧
    (∀ p, ReadAction.fsReadStart p ∉ readFilesAsyncSubscribeActions) ∧
    (subjectReceivedFrom (readFilesAsync paths strategy results order).events k).length
        + k = (readFilesAsync paths strategy results order).events.length ∧
    (subjectReceivedFrom (readFilesAsync paths strategy results order).events k)[m]? =
      (readFilesAsync paths strategy results order).events[k + m]? := by
  refine ⟨?_, ?_, ?_, ?_⟩
  · intro p hp
    exact List.mem_map_of_mem ReadAction.fsReadStart hp
  · intro p
    simp [readFilesAsyncSubscribeActions]
  · simp only [subjectReceivedFrom, List.length_drop]
    omega
  · simp [subjectReceivedFrom, List.getElem?_drop]

/-- Witness for claim C10 at a one-path run with one pushed value and a
subscriber arriving after that push. -/
theorem readFilesAsync_reads_start_at_call_witness :
    (∀ p, p ∈ (["a"] : List String) →
      ReadAction.fsReadStart p ∈ readFilesAsyncCallActions ["a"] EmissionStrategy.eager) ∧
    (∀ p, ReadAction.fsReadStart p ∉ readFilesAsyncSubscribeActions) ∧
    (subjectReceivedFrom
        (readFilesAsync ["a"] EmissionStrategy.eager [Except.ok "x"] [0]).events 1).length
        + 1 = (readFilesAsync ["a"] EmissionStrategy.eager [Except.ok "x"] [0]).events.length ∧
    (subjectReceivedFrom
        (readFilesAsync ["a"] EmissionStrategy.eager [Except.ok "x"] [0]).events 1)[0]? =
      (readFilesAsync ["a"] EmissionStrategy.eager [Except.ok "x"] [0]).events[1 + 0]? :=
  readFilesAsync_reads_start_at_call ["a"] EmissionStrategy.eager [Except.ok "x"] [0] 1 0
    (by decide)
